import Mathlib

/-!
Verification of the gossip chat core: the identity-claim protocol
(`Chat.Register` and the `registerNick` / `channelMembers` HTTP handlers of
`pkg/chat/api.go`) and the ingestion pipeline (`pkg/ingest`'s `Run` handler).

Modelling conventions:
* Go strings are `String`; byte slices are `List Nat`; `uint64` sequence
  numbers and wall-clock instants are `Nat`.
* The Go map `map[string]User` is an association list `List (String × User)`;
  a `nil` map is `Option.none`, a non-nil (possibly empty) map is `some l`.
* Fallible Go functions return `Except`.
* The store behind the `Store` interface is an in-memory association list
  from channel name to `Chat`, with `Get` failing with not-found on a miss
  and `Save` an upsert of the channel snapshot, per the stated store
  contract; its in-memory `Save` is total.
-/

/-- A claimed identity inside one channel (`User` in `pkg/chat`):
nick, full name, email, and the per-member secret. -/
structure User where
  Nick : String
  FullName : String
  Email : String
  Secret : String
deriving DecidableEq

/-- A channel record (`Chat` in `pkg/chat`): name, channel secret, private
flag, and the nick-keyed membership map. `Members = none` models a nil Go
map; `some l` a non-nil map with entries `l`. -/
structure Chat where
  Name : String
  Secret : String
  Private : Bool
  Members : Option (List (String × User))
deriving DecidableEq

/-- Association-list lookup keyed by `String` (models Go map read). -/
def alookup {β : Type} : List (String × β) → String → Option β
  | [], _ => none
  | p :: rest, k => if p.1 = k then some p.2 else alookup rest k

/-- Association-list in-place update of an existing key (models Go map write
to a present key). -/
def aupdate {β : Type} (l : List (String × β)) (k : String) (v : β) :
    List (String × β) :=
  l.map (fun p => if p.1 = k then (k, v) else p)

/-- Association-list upsert (models Go map write / store `Save`). -/
def aupsert {β : Type} (l : List (String × β)) (k : String) (v : β) :
    List (String × β) :=
  if (alookup l k).isSome then aupdate l k v else l ++ [(k, v)]

/-- Error of the identity-claim operation: the nick is already claimed and
no matching member secret was presented. -/
inductive RegisterErr where
  | NickTaken
deriving DecidableEq

/-- Modelled from the spec: `Chat.Register` (in `pkg/chat/chat.go`, not under
`src/`; `registerNick` in `src/pkg/chat/api.go` is its caller). Spec §4.1:
if the candidate's nick is unclaimed, store the user with a freshly generated
secret `gen` (the presented secret is ignored on a first claim) and return
`gen`; if the nick is claimed, a non-empty presented secret equal to the
stored member's secret updates the stored fullName/email and returns the
existing secret, while a mismatching or empty presented secret fails with
`NickTaken`. Secret generation is external randomness, so the fresh secret
is a parameter `gen`. -/
def Chat.Register (ch : Chat) (u : User) (presented : String) (gen : String) :
    Except RegisterErr (Chat × String) :=
  let l := ch.Members.getD []
  match alookup l u.Nick with
  | some m =>
      if presented ≠ "" ∧ presented = m.Secret then
        let m' := { m with FullName := u.FullName, Email := u.Email }
        .ok ({ ch with Members := some (aupdate l u.Nick m') }, m.Secret)
      else .error .NickTaken
  | none =>
      .ok ({ ch with Members := some (l ++ [(u.Nick, { u with Secret := gen })]) },
           gen)

/-- Modelled from the spec: `NewChannel` (in `pkg/chat/chat.go`, not under
`src/`; called by `createChannel` in `src/pkg/chat/api.go`). Spec §4.1:
allocates a Channel with a freshly generated secret and empty membership;
pure construction. The generated secret is the parameter `gen`. -/
def NewChannel (name : String) (priv : Bool) (gen : String) : Chat :=
  { Name := name, Secret := gen, Private := priv, Members := some [] }

/-- The nicks stored in a channel's membership map. -/
def chatNicks (ch : Chat) : List String :=
  (ch.Members.getD []).map Prod.fst

/-- The channel resulting from a `Register` call: the updated channel on
success, the unchanged channel on failure (a failed `Register` returns an
error and leaves the channel as it was). -/
def registerResultChat (ch : Chat) (u : User) (presented gen : String) : Chat :=
  match ch.Register u presented gen with
  | .ok (ch', _) => ch'
  | .error _ => ch

/-- The in-memory store state: channel name to channel record. -/
abbrev StoreSt := List (String × Chat)

/-- Modelled from the spec: the store's `Get(channelName)`, which fails with
not-found when the channel is absent (store contract, spec §6; the store
implementation is not under `src/`). -/
def storeGet (st : StoreSt) (name : String) : Except String Chat :=
  match alookup st name with
  | some ch => .ok ch
  | none => .error "chat: not found"

/-- Errors surfaced by the API handlers in `src/pkg/chat/api.go`: either one
of the handler's own `fmt.Errorf` messages (`Str`) or a `Chat.Register`
error propagated verbatim (`Reg`). -/
inductive ApiError where
  | Str (s : String)
  | Reg (e : RegisterErr)
deriving DecidableEq

/-- The `registerNickReq` request body of `src/pkg/chat/api.go`. -/
structure RegisterNickReq where
  Nick : String
  FullName : String
  Email : String
  Secret : String
  Channel : String
  ChannelSecret : String
deriving DecidableEq

/-- The `registerNick` handler of `src/pkg/chat/api.go` (lines 141-168):
fetch the channel ("could not fetch channel" on a store miss), reject a
presented channel secret different from the stored one ("invalid secret"),
call `ch.Register` with a `User` built from the request (zero-valued member
secret) and the request's member secret, propagate a `Register` error
verbatim, and otherwise `Save` the updated channel and return the secret.
On any error the handler returns before `Save`, so the store is unchanged. -/
def registerNick (gen : String) (req : RegisterNickReq) (st : StoreSt) :
    Except ApiError (StoreSt × String) :=
  match storeGet st req.Channel with
  | .error _ => .error (.Str "could not fetch channel")
  | .ok ch =>
    if ch.Secret ≠ req.ChannelSecret then .error (.Str "invalid secret")
    else
      match ch.Register { Nick := req.Nick, FullName := req.FullName,
                          Email := req.Email, Secret := "" } req.Secret gen with
      | .error e => .error (.Reg e)
      | .ok (ch', secret) => .ok (aupsert st ch'.Name ch', secret)

/-- One `registerNick` request applied to the store: the saved store on
success, the unchanged store on failure. -/
def regStep (gen : String) (st : StoreSt) (req : RegisterNickReq) : StoreSt :=
  match registerNick gen req st with
  | .ok (st', _) => st'
  | .error _ => st

/-- A sequence of `registerNick` requests, each paired with the fresh secret
generated for it, applied in order. -/
def runRegisterNicks (st : StoreSt) (steps : List (RegisterNickReq × String)) :
    StoreSt :=
  steps.foldl (fun s p => regStep p.2 s p.1) st

/-- Modelled from the spec: the serialized per-channel execution of a batch
of `Register` calls (spec §4.1/§5 mandate that the check-then-write sequence
of `Register` is serialized per channel, so N concurrent calls execute in
some sequential order). Each call is a candidate user, a presented member
secret and the fresh secret generated for it; the result pairs the final
channel with the per-call outcomes in order. -/
def serialRegister (ch : Chat) :
    List (User × String × String) → Chat × List (Except RegisterErr String)
  | [] => (ch, [])
  | c :: rest =>
    match ch.Register c.1 c.2.1 c.2.2 with
    | .ok (ch', s) =>
        let r := serialRegister ch' rest
        (r.1, .ok s :: r.2)
    | .error e =>
        let r := serialRegister ch rest
        (r.1, .error e :: r.2)

/-- Whether a `Register` outcome is a success (a secret was returned). -/
def isOkResult : Except RegisterErr String → Bool
  | .ok _ => true
  | .error _ => false

/-- Whether a `Register` outcome is a `NickTaken` failure. -/
def isNickTakenResult : Except RegisterErr String → Bool
  | .error .NickTaken => true
  | .ok _ => false

/-- The `channelMembersReq` request body of `src/pkg/chat/api.go`. -/
structure ChannelMembersReq where
  Channel : String
  ChannelSecret : String
deriving DecidableEq

/-- The member-listing loop of the `channelMembers` handler
(`src/pkg/chat/api.go` lines 219-226): start from the empty slice and, when
the membership map is non-nil and non-empty, append every member with its
`Secret` field blanked. -/
def membersRedacted (ch : Chat) : List User :=
  match ch.Members with
  | none => []
  | some l =>
      if 0 < l.length then l.map (fun p => { p.2 with Secret := "" }) else []

/-- The `channelMembers` handler of `src/pkg/chat/api.go` (lines 213-229):
fetch the channel ("could not fetch channel" on a store miss) and return the
members with secrets blanked. The request's `ChannelSecret` field is never
consulted by the handler. -/
def channelMembers (req : ChannelMembersReq) (st : StoreSt) :
    Except ApiError (List User) :=
  match storeGet st req.Channel with
  | .error _ => .error (.Str "could not fetch channel")
  | .ok ch => .ok (membersRedacted ch)

/-- Replace every stored member secret of a channel by an arbitrary function
of the entry (used to state that member listing does not depend on the
stored secrets). -/
def setMemberSecrets (f : String × User → String) (ch : Chat) : Chat :=
  { ch with Members :=
      ch.Members.map (fun l => l.map (fun p => (p.1, { p.2 with Secret := f p }))) }

/-- One ingested chat event (`broker.Msg`): sender, text, wall-clock time
and the broker-assigned sequence number. Modelled from the spec (§3, §6;
`pkg/broker` is not under `src/`): content fields plus `seq`, the
broker-assigned position. Time instants are `Nat`. -/
structure Msg where
  From : String
  Text : String
  Time : Nat
  Seq : Nat
deriving DecidableEq

/-- The placeholder message the ingest handler synthesizes on decode failure
(`src/pkg/ingest/ingest.go`): fixed sender `"ingest"`, fixed diagnostic
text, the current wall-clock time `now`, and a zero-valued `Seq` (overwritten
by the handler). -/
def placeholderMsg (now : Nat) : Msg :=
  { From := "ingest", Text := "ingest: message unavailable: decoding error",
    Time := now, Seq := 0 }

/-- The per-delivery message construction of the ingest handler in `Run`
(`src/pkg/ingest/ingest.go`): decode the payload, substitute the placeholder
on decode failure, then assign the broker-provided `seq` in either case.
The decoder `broker.DecodeMsg` is a collaborator not under `src/`, modelled
as an abstract total function `decode` (`none` is a decode error), and the
wall clock as `now`. -/
def handleDelivery (decode : List Nat → Option Msg) (now : Nat)
    (seq : Nat) (data : List Nat) : Msg :=
  let msg := match decode data with
    | some m => m
    | none => placeholderMsg now
  { msg with Seq := seq }

/-- One delivery processed by the ingest handler against an abstract store
append (`i.store.AppendMessage`): the handler calls the append once and
ignores its result — on failure the delivery is still considered handled
and the store is left as the failed append left it (here: unchanged), with
no retry and no error escalated to the broker (the handler's Go type returns
nothing). -/
def ingestStep {St E : Type} (decode : List Nat → Option Msg) (now : Nat)
    (append : St → Msg → Except E St) (st : St) (d : Nat × List Nat) : St :=
  match append st (handleDelivery decode now d.1 d.2) with
  | .ok s' => s'
  | .error _ => st

/-- The in-memory log store's `AppendMessage`: append to the end of the log
(always succeeds). -/
def listAppend (st : List Msg) (m : Msg) : Except Unit (List Msg) :=
  .ok (st ++ [m])

/-- A sequence of broker deliveries `(seq, payload)` processed in delivery
order by the ingest handler against the in-memory log store. -/
def runDeliveries (decode : List Nat → Option Msg) (now : Nat)
    (st : List Msg) (ds : List (Nat × List Nat)) : List Msg :=
  ds.foldl (ingestStep decode now listAppend) st

/-! ### Association-list lemmas -/

theorem alookup_none_not_mem {β : Type} {l : List (String × β)} {k : String}
    (h : alookup l k = none) : k ∉ l.map Prod.fst := by
  induction l with
  | nil => simp
  | cons p rest ih =>
    simp only [alookup] at h
    by_cases hp : p.1 = k
    · simp [hp] at h
    · simp only [if_neg hp] at h
      simp only [List.map_cons, List.mem_cons, not_or]
      exact ⟨fun hk => hp hk.symm, ih h⟩

theorem alookup_some_mem {β : Type} {l : List (String × β)} {k : String} {v : β}
    (h : alookup l k = some v) : (k, v) ∈ l := by
  induction l with
  | nil => simp [alookup] at h
  | cons p rest ih =>
    obtain ⟨pk, pv⟩ := p
    simp only [alookup] at h
    by_cases hp : pk = k
    · simp only [hp, if_pos rfl] at h
      injection h with hv
      subst hp
      subst hv
      exact List.mem_cons_self _ _
    · simp only [if_neg hp] at h
      exact List.mem_cons_of_mem _ (ih h)

theorem aupdate_map_fst {β : Type} (l : List (String × β)) (k : String) (v : β) :
    (aupdate l k v).map Prod.fst = l.map Prod.fst := by
  simp only [aupdate, List.map_map]
  apply List.map_congr_left
  intro p _
  by_cases hp : p.1 = k
  · simp [hp]
  · simp [hp]

theorem aupdate_length {β : Type} (l : List (String × β)) (k : String) (v : β) :
    (aupdate l k v).length = l.length := by
  simp [aupdate]

theorem mem_aupsert {β : Type} {l : List (String × β)} {k : String} {v q}
    (h : q ∈ aupsert l k v) : q = (k, v) ∨ q ∈ l := by
  unfold aupsert at h
  split at h
  · unfold aupdate at h
    obtain ⟨p, hp, hq⟩ := List.mem_map.mp h
    by_cases hpk : p.1 = k
    · left
      rw [← hq, if_pos hpk]
    · right
      rw [← hq, if_neg hpk]
      exact hp
  · rcases List.mem_append.mp h with h1 | h1
    · right
      exact h1
    · left
      simpa using h1

theorem alookup_append_self {β : Type} {l : List (String × β)} {k : String} (v : β)
    (h : alookup l k = none) : alookup (l ++ [(k, v)]) k = some v := by
  induction l with
  | nil => simp [alookup]
  | cons p rest ih =>
    simp only [alookup] at h
    by_cases hp : p.1 = k
    · simp [if_pos hp] at h
    · simp only [List.cons_append, alookup, if_neg hp] at h ⊢
      exact ih h

theorem alookup_aupdate_self {β : Type} {l : List (String × β)} {k : String} (v : β)
    (h : (alookup l k).isSome) : alookup (aupdate l k v) k = some v := by
  induction l with
  | nil => simp [alookup] at h
  | cons p rest ih =>
    by_cases hp : p.1 = k
    · simp [aupdate, alookup, if_pos hp]
    · simp only [alookup, if_neg hp] at h
      simp only [aupdate, List.map_cons, if_neg hp] at *
      simp only [alookup, if_neg hp]
      exact ih h

theorem alookup_aupdate_ne {β : Type} {l : List (String × β)} {k k' : String} (v : β)
    (h : k' ≠ k) : alookup (aupdate l k v) k' = alookup l k' := by
  induction l with
  | nil => rfl
  | cons p rest ih =>
    obtain ⟨pk, pv⟩ := p
    have hk' : ¬ (k = k') := fun hk => h hk.symm
    by_cases hp : pk = k
    · have hpk' : ¬ (pk = k') := by
        rw [hp]
        exact hk'
      show alookup ((if pk = k then (k, v) else (pk, pv)) :: aupdate rest k v) k' = _
      rw [if_pos hp]
      show (if k = k' then some v else alookup (aupdate rest k v) k') = _
      rw [if_neg hk', ih]
      show alookup rest k' = if pk = k' then some pv else alookup rest k'
      rw [if_neg hpk']
    · show alookup ((if pk = k then (k, v) else (pk, pv)) :: aupdate rest k v) k' = _
      rw [if_neg hp]
      show (if pk = k' then some pv else alookup (aupdate rest k v) k') =
           (if pk = k' then some pv else alookup rest k')
      rw [ih]

/-! ### Characterization of the identity-claim operation -/

theorem register_unclaimed {ch : Chat} {u : User} (ps g : String)
    (hm : alookup (ch.Members.getD []) u.Nick = none) :
    ch.Register u ps g =
      .ok ({ ch with Members := some ((ch.Members.getD []) ++
              [(u.Nick, { u with Secret := g })]) }, g) := by
  simp only [Chat.Register, hm]

theorem register_claimed_fail {ch : Chat} {u m : User} (ps g : String)
    (hm : alookup (ch.Members.getD []) u.Nick = some m)
    (hbad : ps = "" ∨ ps ≠ m.Secret) :
    ch.Register u ps g = .error .NickTaken := by
  have hcond : ¬ (ps ≠ "" ∧ ps = m.Secret) := by
    rcases hbad with hb | hb
    · exact fun hc => hc.1 hb
    · exact fun hc => hb hc.2
  simp only [Chat.Register, hm, if_neg hcond]

theorem register_claimed_ok {ch : Chat} {u m : User} (g : String)
    (hm : alookup (ch.Members.getD []) u.Nick = some m)
    (hne : m.Secret ≠ "") :
    ch.Register u m.Secret g =
      .ok ({ ch with Members := some (aupdate (ch.Members.getD []) u.Nick
              { m with FullName := u.FullName, Email := u.Email }) },
           m.Secret) := by
  simp only [Chat.Register, hm]
  split
  · rfl
  · next hc =>
    simp only [ne_eq, and_true, not_not] at hc
    · exact absurd hc hne

theorem register_ok_chat {ch : Chat} {u : User} {ps g : String} {ch' : Chat}
    {s : String} (h : ch.Register u ps g = .ok (ch', s)) :
    ch'.Secret = ch.Secret ∧ ch'.Name = ch.Name ∧ ch'.Private = ch.Private ∧
    ((chatNicks ch).Nodup → (chatNicks ch').Nodup) := by
  cases hm : alookup (ch.Members.getD []) u.Nick with
  | some m =>
    by_cases hcond : ps ≠ "" ∧ ps = m.Secret
    · simp only [Chat.Register, hm, if_pos hcond] at h
      injection h with h1
      rw [Prod.mk.injEq] at h1
      obtain ⟨h2, h3⟩ := h1
      subst h2
      refine ⟨rfl, rfl, rfl, ?_⟩
      intro hnd
      have heq : chatNicks { ch with Members := some (aupdate (ch.Members.getD [])
            u.Nick { m with FullName := u.FullName, Email := u.Email }) } =
          (ch.Members.getD []).map Prod.fst := by
        simp [chatNicks, aupdate_map_fst]
      rw [heq]
      exact hnd
    · simp only [Chat.Register, hm, if_neg hcond] at h
      exact Except.noConfusion h
  | none =>
    simp only [Chat.Register, hm] at h
    injection h with h1
    rw [Prod.mk.injEq] at h1
    obtain ⟨h2, h3⟩ := h1
    subst h2
    refine ⟨rfl, rfl, rfl, ?_⟩
    intro hnd
    have heq : chatNicks { ch with Members := some ((ch.Members.getD []) ++
          [(u.Nick, { u with Secret := g })]) } =
        (ch.Members.getD []).map Prod.fst ++ [u.Nick] := by
      simp [chatNicks]
    rw [heq, List.nodup_append]
    refine ⟨hnd, List.nodup_singleton _, ?_⟩
    intro a ha hb
    have : a = u.Nick := by simpa using hb
    subst this
    exact alookup_none_not_mem hm ha

theorem storeGet_ok_mem {st : StoreSt} {n : String} {ch : Chat}
    (h : storeGet st n = .ok ch) : (n, ch) ∈ st := by
  unfold storeGet at h
  cases hm : alookup st n with
  | some c =>
    rw [hm] at h
    injection h with h1
    subst h1
    exact alookup_some_mem hm
  | none =>
    rw [hm] at h
    exact Except.noConfusion h

theorem regStep_preserves {gen : String} {st : StoreSt} {req : RegisterNickReq}
    (h : ∀ p ∈ st, (chatNicks p.2).Nodup) :
    ∀ q ∈ regStep gen st req, (chatNicks q.2).Nodup := by
  intro q hq
  unfold regStep at hq
  cases hr : registerNick gen req st with
  | error e =>
    rw [hr] at hq
    exact h q hq
  | ok pr =>
    rw [hr] at hq
    unfold registerNick at hr
    cases hg : storeGet st req.Channel with
    | error e =>
      simp only [hg] at hr
      exact Except.noConfusion hr
    | ok ch =>
      simp only [hg] at hr
      by_cases hs : ch.Secret ≠ req.ChannelSecret
      · rw [if_pos hs] at hr
        exact Except.noConfusion hr
      · rw [if_neg hs] at hr
        cases hreg : ch.Register ⟨req.Nick, req.FullName, req.Email, ""⟩ req.Secret gen with
        | error e =>
          simp only [hreg] at hr
          exact Except.noConfusion hr
        | ok pr2 =>
          obtain ⟨ch', sec⟩ := pr2
          simp only [hreg] at hr
          injection hr with h1
          subst h1
          have hch := h _ (storeGet_ok_mem hg)
          have hnd' := (register_ok_chat hreg).2.2.2 hch
          rcases mem_aupsert hq with hq1 | hq1
          · rw [hq1]
            exact hnd'
          · exact h q hq1

theorem countP_const_map {α β : Type} (l : List α) (x : β) (p : β → Bool) :
    (l.map (fun _ => x)).countP p = if p x then l.length else 0 := by
  induction l with
  | nil => simp
  | cons a rest ih =>
    simp only [List.map_cons, List.countP_cons, ih]
    by_cases hp : p x
    · simp [hp]
    · simp [hp]

theorem countP_replicate {β : Type} (n : Nat) (x : β) (p : β → Bool) :
    (List.replicate n x).countP p = if p x then n else 0 := by
  induction n with
  | zero => simp
  | succ k ih =>
    simp only [List.replicate_succ, List.countP_cons, ih]
    by_cases hp : p x
    · simp [hp]
    · simp [hp]

theorem serialRegister_claimed {nk : String} {m : User}
    (calls : List (User × String × String)) :
    ∀ ch : Chat, alookup (ch.Members.getD []) nk = some m →
      (∀ c ∈ calls, c.1.Nick = nk ∧ c.2.1 = "") →
      serialRegister ch calls =
        (ch, calls.map (fun _ => .error .NickTaken)) := by
  induction calls with
  | nil =>
    intro ch _ _
    rfl
  | cons c rest ih =>
    intro ch hm hc
    obtain ⟨hnick, hps⟩ := hc c (List.mem_cons_self _ _)
    have hm' : alookup (ch.Members.getD []) c.1.Nick = some m := by
      rw [hnick]
      exact hm
    have hreg : ch.Register c.1 c.2.1 c.2.2 = .error .NickTaken := by
      rw [hps]
      exact register_claimed_fail _ _ hm' (Or.inl rfl)
    simp only [serialRegister, hreg]
    rw [ih ch hm (fun x hx => hc x (List.mem_cons_of_mem _ hx))]
    simp

/-- C1: for any channel in the store, after any sequence of `Register` calls
made through the `registerNick` handler path, all members stored in the
channel's membership map have pairwise-distinct nicks: if every channel in
the store starts with pairwise-distinct member nicks, every channel still
has pairwise-distinct member nicks after any sequence of `registerNick`
requests. -/
theorem register_nick_uniqueness (st : StoreSt)
    (steps : List (RegisterNickReq × String))
    (h : ∀ p ∈ st, (chatNicks p.2).Nodup) :
    ∀ q ∈ runRegisterNicks st steps, (chatNicks q.2).Nodup := by
  induction steps generalizing st with
  | nil => simpa [runRegisterNicks] using h
  | cons sg rest ih =>
    simp only [runRegisterNicks, List.foldl_cons] at *
    exact ih _ (regStep_preserves h)

/-- C1 witness: a concrete store (one channel, no members) and two
`registerNick` requests; the invariant hypothesis holds and every channel
in the resulting store has pairwise-distinct member nicks. -/
theorem register_nick_uniqueness_witness :
    (chatNicks (Chat.mk "general" "S1" false
      (some [("alice", User.mk "alice" "Alice" "a@b" "g1"),
             ("bob", User.mk "bob" "Bob" "b@b" "g3")]))).Nodup :=
  register_nick_uniqueness
    [("general", Chat.mk "general" "S1" false (some []))]
    [(RegisterNickReq.mk "alice" "Alice" "a@b" "" "general" "S1", "g1"),
     (RegisterNickReq.mk "alice" "Alice" "a@b" "" "general" "S1", "g2"),
     (RegisterNickReq.mk "bob" "Bob" "b@b" "" "general" "S1", "g3")]
    (by decide)
    ("general", Chat.mk "general" "S1" false
      (some [("alice", User.mk "alice" "Alice" "a@b" "g1"),
             ("bob", User.mk "bob" "Bob" "b@b" "g3")]))
    (by decide)

/-- C2: N concurrent `Register` calls for the same unclaimed nick on the
same channel: the check-then-write sequence is serialized per channel
(spec §4.1/§5), so the calls execute in some sequential order, modelled by
`serialRegister` over an arbitrary order of the calls; exactly one call
succeeds (returning a secret) and the other N-1 fail with `NickTaken`. Each
racing caller presents an empty member secret (a fresh claim). -/
theorem register_race_single_winner (ch : Chat) (nk : String)
    (calls : List (User × String × String))
    (hun : alookup (ch.Members.getD []) nk = none)
    (hcalls : ∀ c ∈ calls, c.1.Nick = nk ∧ c.2.1 = "")
    (hne : calls ≠ []) :
    ((serialRegister ch calls).2.countP isOkResult) = 1 ∧
    ((serialRegister ch calls).2.countP isNickTakenResult) = calls.length - 1 := by
  obtain ⟨c, rest, rfl⟩ := List.exists_cons_of_ne_nil hne
  obtain ⟨hnick, hps⟩ := hcalls c (List.mem_cons_self _ _)
  have hun' : alookup (ch.Members.getD []) c.1.Nick = none := by
    rw [hnick]
    exact hun
  have hreg := register_unclaimed c.2.1 c.2.2 hun'
  have hm1 : alookup ((ch.Members.getD []) ++
      [(c.1.Nick, { c.1 with Secret := c.2.2 })]) nk =
      some { c.1 with Secret := c.2.2 } := by
    rw [hnick]
    exact alookup_append_self _ hun
  have hrest := serialRegister_claimed rest
    ({ ch with Members := some ((ch.Members.getD []) ++
        [(c.1.Nick, { c.1 with Secret := c.2.2 })]) })
    hm1 (fun x hx => hcalls x (List.mem_cons_of_mem _ hx))
  simp only [serialRegister, hreg, hrest]
  constructor
  · simp [List.countP_cons, countP_const_map, countP_replicate, isOkResult,
      isNickTakenResult]
  · simp [List.countP_cons, countP_const_map, countP_replicate, isOkResult,
      isNickTakenResult]

/-- C2 witness: three racing claims of the unclaimed nick `"alice"` on a
concrete channel, each presenting an empty member secret: exactly one
success and two `NickTaken` failures. -/
theorem register_race_single_winner_witness :
    ((serialRegister
        { Name := "general", Secret := "S1", Private := false, Members := some [] }
        [({ Nick := "alice", FullName := "A", Email := "a", Secret := "" }, "", "g1"),
         ({ Nick := "alice", FullName := "B", Email := "b", Secret := "" }, "", "g2"),
         ({ Nick := "alice", FullName := "C", Email := "c", Secret := "" }, "", "g3")]).2.countP
      isOkResult) = 1 ∧
    ((serialRegister
        { Name := "general", Secret := "S1", Private := false, Members := some [] }
        [({ Nick := "alice", FullName := "A", Email := "a", Secret := "" }, "", "g1"),
         ({ Nick := "alice", FullName := "B", Email := "b", Secret := "" }, "", "g2"),
         ({ Nick := "alice", FullName := "C", Email := "c", Secret := "" }, "", "g3")]).2.countP
      isNickTakenResult) =
      ([({ Nick := "alice", FullName := "A", Email := "a", Secret := "" }, "", "g1"),
        ({ Nick := "alice", FullName := "B", Email := "b", Secret := "" }, "", "g2"),
        ({ Nick := "alice", FullName := "C", Email := "c", Secret := "" }, ("" : String), "g3")] :
        List (User × String × String)).length - 1 :=
  register_race_single_winner _ "alice" _ (by decide) (by decide) (by decide)

/-- C3: re-claim idempotence. For a channel and a user whose nick is already
claimed (stored member `m`, with the non-empty secret issued at the original
claim), `Register(u, m.Secret)` succeeds returning the same secret `m.Secret`,
updates only the stored fullName/email fields (the entry keeps its nick and
secret, all other entries and the channel's own fields are unchanged), and
leaves the membership count unchanged. -/
theorem reclaim_idempotence (ch : Chat) (u m : User) (g : String)
    (hm : alookup (ch.Members.getD []) u.Nick = some m)
    (hs : m.Secret ≠ "") :
    ∃ ch', ch.Register u m.Secret g = .ok (ch', m.Secret) ∧
      (ch'.Members.getD []).length = (ch.Members.getD []).length ∧
      alookup (ch'.Members.getD []) u.Nick =
        some { m with FullName := u.FullName, Email := u.Email } ∧
      (∀ k, k ≠ u.Nick → alookup (ch'.Members.getD []) k =
        alookup (ch.Members.getD []) k) ∧
      ch'.Secret = ch.Secret ∧ ch'.Name = ch.Name ∧ ch'.Private = ch.Private := by
  refine ⟨_, register_claimed_ok g hm hs, ?_, ?_, ?_, rfl, rfl, rfl⟩
  · exact aupdate_length _ _ _
  · exact alookup_aupdate_self _ (by rw [hm]; rfl)
  · intro k hk
    exact alookup_aupdate_ne _ hk

/-- C3 witness: a concrete channel with one member `"alice"` holding secret
`"as123"`; re-claiming with that secret returns `"as123"`, updates only the
fullName/email, and keeps the member count at 1. -/
theorem reclaim_idempotence_witness :
    ∃ ch', Chat.Register
        (Chat.mk "general" "S1" false (some [("alice", User.mk "alice" "A" "a" "as123")]))
        (User.mk "alice" "A2" "a2" "") "as123" "gX" = .ok (ch', "as123") ∧
      (ch'.Members.getD []).length = 1 ∧
      alookup (ch'.Members.getD []) "alice" =
        some (User.mk "alice" "A2" "a2" "as123") ∧
      (∀ k, k ≠ "alice" → alookup (ch'.Members.getD []) k =
        alookup [("alice", User.mk "alice" "A" "a" "as123")] k) ∧
      ch'.Secret = "S1" ∧ ch'.Name = "general" ∧ ch'.Private = false :=
  reclaim_idempotence
    (Chat.mk "general" "S1" false (some [("alice", User.mk "alice" "A" "a" "as123")]))
    (User.mk "alice" "A2" "a2" "") (User.mk "alice" "A" "a" "as123")
    "gX" (by decide) (by decide)

/-- C4: claim rejection. For a channel fetched through the `registerNick`
path (correct channel secret presented) and a user whose nick is already
claimed by stored member `m`, a presented member secret that is empty or
different from `m.Secret` makes the handler fail with `NickTaken`
(propagated verbatim, no secret returned) before the store `Save`, so the
membership is not mutated; the underlying `Register` itself returns
`NickTaken`. -/
theorem claim_rejection (gen : String) (req : RegisterNickReq) (st : StoreSt)
    (ch : Chat) (m : User)
    (hget : storeGet st req.Channel = .ok ch)
    (hsec : ch.Secret = req.ChannelSecret)
    (hm : alookup (ch.Members.getD []) req.Nick = some m)
    (hbad : req.Secret = "" ∨ req.Secret ≠ m.Secret) :
    registerNick gen req st = .error (.Reg .NickTaken) ∧
    ch.Register (User.mk req.Nick req.FullName req.Email "") req.Secret gen =
      .error .NickTaken := by
  have hreg : ch.Register ⟨req.Nick, req.FullName, req.Email, ""⟩
      req.Secret gen = .error .NickTaken :=
    register_claimed_fail _ _ hm hbad
  refine ⟨?_, hreg⟩
  have hns : ¬ (ch.Secret ≠ req.ChannelSecret) := fun hx => hx hsec
  simp only [registerNick, hget, if_neg hns, hreg]

/-- C4 witness: re-claiming `"alice"` through the handler with the wrong
member secret `"zz999"` (stored secret `"as123"`) fails with `NickTaken`. -/
theorem claim_rejection_witness :
    registerNick "gX"
      (RegisterNickReq.mk "alice" "A2" "a2" "zz999" "general" "S1")
      [("general", Chat.mk "general" "S1" false
        (some [("alice", User.mk "alice" "A" "a" "as123")]))] =
      .error (.Reg .NickTaken) ∧
    Chat.Register
      (Chat.mk "general" "S1" false (some [("alice", User.mk "alice" "A" "a" "as123")]))
      (User.mk "alice" "A2" "a2" "") "zz999" "gX" = .error .NickTaken :=
  claim_rejection "gX" _ _ _ (User.mk "alice" "A" "a" "as123")
    rfl rfl (by decide) (Or.inr (by decide))

/-- C6: the channel secret is set exactly once, at creation
(`NewChannel` stores the freshly generated secret), and is never regenerated
afterwards: `Register` — the only core operation that produces an updated
channel (member listing and ingestion never touch the channel record) —
always leaves the channel's secret unchanged, whether it succeeds or fails. -/
theorem channel_secret_set_once (name : String) (priv : Bool) (g : String)
    (ch : Chat) (u : User) (ps gen : String) :
    (NewChannel name priv g).Secret = g ∧
    (registerResultChat ch u ps gen).Secret = ch.Secret := by
  refine ⟨rfl, ?_⟩
  unfold registerResultChat
  cases hr : ch.Register u ps gen with
  | ok pr =>
    obtain ⟨ch', s⟩ := pr
    exact (register_ok_chat hr).1
  | error e => rfl

/-- C9: member listing redacts secrets. Every user returned by the listing
loop of `channelMembers` has an empty `Secret` field, and the returned list
does not depend on the members' stored secret values: replacing every stored
member secret by an arbitrary function of the entry leaves the result
unchanged. -/
theorem list_members_redacted (ch : Chat) (f : String × User → String) :
    ((membersRedacted ch).all (fun u => u.Secret == "")) = true ∧
    membersRedacted (setMemberSecrets f ch) = membersRedacted ch := by
  constructor
  · cases hm : ch.Members with
    | none => simp [membersRedacted, hm]
    | some l =>
      simp only [membersRedacted, hm]
      by_cases hl : 0 < l.length
      · rw [if_pos hl]
        simp only [List.all_eq_true, List.mem_map]
        intro u hu
        obtain ⟨p, hp, hpe⟩ := hu
        rw [← hpe]
        rfl
      · rw [if_neg hl]
        rfl
  · cases hm : ch.Members with
    | none => simp [membersRedacted, setMemberSecrets, hm]
    | some l =>
      simp only [membersRedacted, setMemberSecrets, hm, Option.map_some',
        List.length_map]
      by_cases hl : 0 < l.length
      · rw [if_pos hl, if_pos hl, List.map_map]
        apply List.map_congr_left
        intro p _
        rfl
      · rw [if_neg hl, if_neg hl]

/-- C10: for every channel found in the store, `channelMembers` returns a
(possibly empty) list — never an error and never a missing value — including
when the membership map is nil (`Members = none`) or empty; it errors (with
"could not fetch channel") exactly when the store lookup fails. -/
theorem channel_members_total (req : ChannelMembersReq) (st : StoreSt) :
    (∀ ch, storeGet st req.Channel = .ok ch →
      channelMembers req st = .ok (membersRedacted ch)) ∧
    (∀ e, storeGet st req.Channel = .error e →
      channelMembers req st = .error (.Str "could not fetch channel")) := by
  constructor
  · intro ch h
    simp only [channelMembers, h]
  · intro e h
    simp only [channelMembers, h]

/-- C10 witness: a stored channel with a nil membership map; listing
succeeds with the empty list. -/
theorem channel_members_total_witness :
    channelMembers (ChannelMembersReq.mk "g" "")
      [("g", Chat.mk "g" "s" false none)] = .ok [] :=
  (channel_members_total (ChannelMembersReq.mk "g" "")
    [("g", Chat.mk "g" "s" false none)]).1 (Chat.mk "g" "s" false none) rfl

/-- C5: decode-failure continuity. The ingest handler assigns the
broker-provided `seq` to the constructed message on every path, and on a
decode failure appends a synthesized placeholder (sender `"ingest"`, fixed
diagnostic text, current wall-clock time) instead of dropping the delivery:
the delivery sequence valid(seq 1), malformed(seq 2), valid(seq 3) yields
exactly 3 log entries in order, the second being the placeholder carrying
seq 2. -/
theorem decode_failure_continuity (decode : List Nat → Option Msg) (now : Nat)
    (d1 d2 d3 : List Nat) (m1 m3 : Msg)
    (h1 : decode d1 = some m1) (h2 : decode d2 = none)
    (h3 : decode d3 = some m3) :
    runDeliveries decode now [] [(1, d1), (2, d2), (3, d3)] =
      [{ m1 with Seq := 1 }, { placeholderMsg now with Seq := 2 },
       { m3 with Seq := 3 }] ∧
    (∀ seq data, (handleDelivery decode now seq data).Seq = seq) := by
  constructor
  · simp [runDeliveries, ingestStep, listAppend, handleDelivery, h1, h2, h3]
  · intro seq data
    cases hd : decode data with
    | some m => simp [handleDelivery, hd]
    | none => simp [handleDelivery, hd]

/-- C5 witness: a concrete decoder failing exactly on payload `[2]`;
processing deliveries seq 1, 2, 3 yields three entries in order with the
placeholder (carrying seq 2) in the middle, and the handler stamps an
arbitrary delivery (here seq 5) with its broker-provided seq. -/
theorem decode_failure_continuity_witness :
    runDeliveries (fun d => if d = [2] then none else some (Msg.mk "u" "t" 9 0))
        7 [] [(1, [1]), (2, [2]), (3, [3])] =
      [Msg.mk "u" "t" 9 1,
       Msg.mk "ingest" "ingest: message unavailable: decoding error" 7 2,
       Msg.mk "u" "t" 9 3] ∧
    (handleDelivery (fun d => if d = [2] then none else some (Msg.mk "u" "t" 9 0))
        7 5 [9]).Seq = 5 := by
  have h := decode_failure_continuity
    (fun d => if d = [2] then none else some (Msg.mk "u" "t" 9 0))
    7 [1] [2] [3] (Msg.mk "u" "t" 9 0) (Msg.mk "u" "t" 9 0) rfl rfl rfl
  exact ⟨h.1, h.2 5 [9]⟩

/-- C8: an `AppendMessage` failure is absorbed: the ingest handler calls the
append and ignores its result — it completes normally (its codomain carries
no error), performs no retry, and escalates nothing to the broker; on a
failed append the store is left unchanged, on a successful append the
delivery produced exactly the appended state. -/
theorem append_failure_absorbed {St E : Type} (decode : List Nat → Option Msg)
    (now : Nat) (append : St → Msg → Except E St) (st : St) (seq : Nat)
    (data : List Nat) :
    (∀ e, append st (handleDelivery decode now seq data) = .error e →
      ingestStep decode now append st (seq, data) = st) ∧
    (∀ s', append st (handleDelivery decode now seq data) = .ok s' →
      ingestStep decode now append st (seq, data) = s') := by
  constructor
  · intro e h
    simp [ingestStep, h]
  · intro s' h
    simp [ingestStep, h]

/-- C8 witness: an always-failing append; the handler still completes and
leaves the (empty) log unchanged. -/
theorem append_failure_absorbed_witness :
    ingestStep (fun _ => none) 0
      (fun _ _ => (Except.error () : Except Unit (List Msg))) [] (1, []) = [] :=
  (append_failure_absorbed (fun _ => none) 0
    (fun _ _ => Except.error ()) [] 1 []).1 () rfl

/-- C7, evaluated at the failing input: the `channelMembers` handler returns
the member list even though the presented channel secret (empty) differs
from the stored channel secret `"S1"` — the handler parses and
length-validates `channel_secret` but never compares it with the stored
secret, while `registerNick` does enforce the comparison. -/
theorem channelMembers_ignores_channel_secret :
    channelMembers (ChannelMembersReq.mk "general" "")
      [("general", Chat.mk "general" "S1" false
        (some [("alice", User.mk "alice" "Alice" "a@b" "as")]))] =
      .ok [User.mk "alice" "Alice" "a@b" ""] ∧
    ("S1" : String) ≠ "" := by
  constructor
  · rfl
  · decide
